import Mathlib

/-!
Verification of the Fund-Valuation-System core against its specification.

The Python sources (`fund_assistant/logic.py`, `fund_assistant/database.py`,
`fund_assistant/data_api.py`, `fund_assistant/app.py`) are shallowly embedded
below.  Numeric values (Python floats) are modelled as exact rationals `ℚ`;
quantities that are irrational in exact arithmetic (square roots inside the
Sharpe ratio) live in `ℝ`.  Fallible operations are modelled with `Option`.
Each embedded definition carries a comment pointing at the source function it
translates.
-/

namespace FundAssistant

/-! ## Cost-basis recalculation (`logic.py`, `calculate_new_cost`) -/

inductive TradeType
  | buy
  | sell
  deriving DecidableEq, Repr

/-- Embedding of `logic.calculate_new_cost(old_share, old_cost, trade_amount,
trade_price, trade_type)`.  `trade_amount` is the number of shares traded.
Returns `(new_share, new_cost)`. -/
def calculate_new_cost (old_share old_cost trade_amount trade_price : ℚ)
    (trade_type : TradeType) : ℚ × ℚ :=
  match trade_type with
  | TradeType.sell =>
      -- Sell: cost price unchanged, share decreases, floored at 0.
      let new_share := old_share - trade_amount
      if new_share < 0 then (0, old_cost) else (new_share, old_cost)
  | TradeType.buy =>
      let old_value := old_share * old_cost
      let new_value := trade_amount * trade_price
      let total_share := old_share + trade_amount
      let total_value := old_value + new_value
      if total_share = 0 then (0, 0)
      else (total_share, total_value / total_share)

/-! ## Maximum drawdown (`logic.py`, `calculate_max_drawdown`) -/

/-- Running maxima of a series: `cummax l` is the pandas `Series.cummax`,
i.e. entry `i` is the maximum of `l[0..i]`. -/
def cummax : List ℚ → List ℚ
  | [] => []
  | a :: l => a :: (cummax l).map (fun x => max a x)

/-- Minimum of a list of rationals (`Series.min`), `none` on the empty list. -/
def listMin : List ℚ → Option ℚ
  | [] => none
  | a :: l =>
      some (match listMin l with
            | none => a
            | some b => min a b)

/-- Maximum of a list of rationals (`Series.max`), `none` on the empty list. -/
def listMax : List ℚ → Option ℚ
  | [] => none
  | a :: l =>
      some (match listMax l with
            | none => a
            | some b => max a b)

/-- The drawdown series `(nav - roll_max) / roll_max` of
`logic.calculate_max_drawdown`. -/
def drawdownSeries (navs : List ℚ) : List ℚ :=
  List.zipWith (fun nav m => (nav - m) / m) navs (cummax navs)

/-- Embedding of `logic.calculate_max_drawdown(nav_series)`:
`abs(((nav - nav.cummax()) / nav.cummax()).min())`.  The `.min()` of an empty
series is NaN in pandas, modelled as `none`. -/
def calculate_max_drawdown (navs : List ℚ) : Option ℚ :=
  (listMin (drawdownSeries navs)).map (fun m => |m|)

/-- The specification's formula for maximum drawdown:
`max over t of (running_max(nav[0..t]) - nav[t]) / running_max(nav[0..t])`. -/
def specMaxDrawdown (navs : List ℚ) : Option ℚ :=
  listMax (List.zipWith (fun nav m => (m - nav) / m) navs (cummax navs))

lemma forall2_le_cummax (navs : List ℚ) :
    List.Forall₂ (· ≤ ·) navs (cummax navs) := by
  induction navs with
  | nil => exact List.Forall₂.nil
  | cons a l ih =>
    refine List.Forall₂.cons le_rfl ?_
    rw [List.forall₂_map_right_iff]
    exact ih.imp (fun x y (h : x ≤ y) => h.trans (le_max_right a y))

lemma cummax_pos (navs : List ℚ) (h : ∀ x ∈ navs, 0 < x) :
    ∀ m ∈ cummax navs, 0 < m := by
  induction navs with
  | nil => intro m hm; simp [cummax] at hm
  | cons a l ih =>
    intro m hm
    simp only [cummax, List.mem_cons, List.mem_map] at hm
    rcases hm with h1 | ⟨x, _, h2⟩
    · exact h1 ▸ h a (List.mem_cons_self a l)
    · exact h2 ▸ lt_of_lt_of_le (h a (List.mem_cons_self a l)) (le_max_left a x)

lemma zipWith_dd_nonpos :
    ∀ {l₁ l₂ : List ℚ}, List.Forall₂ (· ≤ ·) l₁ l₂ → (∀ m ∈ l₂, 0 < m) →
      ∀ d ∈ List.zipWith (fun nav m => (nav - m) / m) l₁ l₂, d ≤ 0 := by
  intro l₁ l₂ hf
  induction hf with
  | nil => intro _ d hd; simp at hd
  | @cons a b l₁ l₂ hab _ ih =>
    intro hpos d hd
    simp only [List.zipWith, List.mem_cons] at hd
    rcases hd with h1 | h2
    · have hb : 0 < b := hpos b (List.mem_cons_self b _)
      have : (a - b) / b ≤ 0 :=
        div_nonpos_iff.mpr (Or.inr ⟨sub_nonpos.mpr hab, hb.le⟩)
      exact h1 ▸ this
    · exact ih (fun m hm => hpos m (List.mem_cons_of_mem b hm)) d h2

lemma listMin_mem : ∀ {l : List ℚ} {m : ℚ}, listMin l = some m → m ∈ l := by
  intro l
  induction l with
  | nil => intro m h; simp [listMin] at h
  | cons a l ih =>
    intro m h
    simp only [listMin] at h
    rcases hl : listMin l with _ | b
    · rw [hl] at h
      simp at h
      exact h ▸ List.mem_cons_self a l
    · rw [hl] at h
      simp at h
      rcases le_total a b with hab | hab
      · rw [min_eq_left hab] at h
        exact h ▸ List.mem_cons_self a l
      · rw [min_eq_right hab] at h
        exact List.mem_cons_of_mem a (h ▸ ih hl)

lemma listMax_map_neg :
    ∀ l : List ℚ, listMax (l.map (fun x => -x)) = (listMin l).map (fun x => -x) := by
  intro l
  induction l with
  | nil => rfl
  | cons a l ih =>
    simp only [List.map_cons, listMax, listMin, ih]
    rcases hl : listMin l with _ | b
    · rfl
    · show some (max (-a) (-b)) = some (-(min a b))
      rcases le_total a b with hab | hab
      · rw [min_eq_left hab, max_eq_left (neg_le_neg hab)]
      · rw [min_eq_right hab, max_eq_right (neg_le_neg hab)]

lemma drawdownSeries_ne_nil {navs : List ℚ} (h : navs ≠ []) :
    drawdownSeries navs ≠ [] := by
  cases navs with
  | nil => exact absurd rfl h
  | cons a l => simp [drawdownSeries, cummax]

/-- Claim C8: for every non-empty NAV series with positive values, the computed
max drawdown equals the maximum over all positions `t` of
`(running_max(nav[0..t]) - nav[t]) / running_max(nav[0..t])`, reported as a
non-negative magnitude; for `[1.0, 1.2, 0.9, 1.1]` it equals `0.25`. -/
theorem calculate_max_drawdown_spec (navs : List ℚ) (hne : navs ≠ [])
    (hpos : ∀ x ∈ navs, 0 < x) :
    (∃ M, calculate_max_drawdown navs = some M ∧ specMaxDrawdown navs = some M ∧ 0 ≤ M) ∧
    calculate_max_drawdown [1, 6/5, 9/10, 11/10] = some (1/4) := by
  constructor
  · have hdd : ∀ d ∈ drawdownSeries navs, d ≤ 0 :=
      zipWith_dd_nonpos (forall2_le_cummax navs) (cummax_pos navs hpos)
    obtain ⟨m, hm⟩ : ∃ m, listMin (drawdownSeries navs) = some m := by
      rcases hl : listMin (drawdownSeries navs) with _ | m
      · exfalso
        apply drawdownSeries_ne_nil hne
        cases hds : drawdownSeries navs with
        | nil => rfl
        | cons d ds => rw [hds] at hl; simp [listMin] at hl
      · exact ⟨m, rfl⟩
    have hm_nonpos : m ≤ 0 := hdd m (listMin_mem hm)
    refine ⟨-m, ?_, ?_, by linarith⟩
    · rw [calculate_max_drawdown, hm]
      show some |m| = some (-m)
      rw [abs_of_nonpos hm_nonpos]
    · rw [specMaxDrawdown]
      have heq : (fun (nav m : ℚ) => (m - nav) / m) =
          fun (nav m : ℚ) => -((nav - m) / m) := by
        funext x y
        ring
      rw [heq]
      have : (List.zipWith (fun (nav m : ℚ) => -((nav - m) / m)) navs (cummax navs)) =
          (List.zipWith (fun (nav m : ℚ) => (nav - m) / m) navs (cummax navs)).map
            (fun x => -x) := by
        rw [List.map_zipWith]
      rw [this]
      rw [show List.zipWith (fun (nav m : ℚ) => (nav - m) / m) navs (cummax navs) =
            drawdownSeries navs from rfl]
      rw [listMax_map_neg, hm]
      rfl
  · norm_num [calculate_max_drawdown, drawdownSeries, cummax, listMin]

theorem calculate_max_drawdown_spec_witness :
    (([1, 6/5, 9/10, 11/10] : List ℚ) ≠ [] ∧ ∀ x ∈ ([1, 6/5, 9/10, 11/10] : List ℚ), 0 < x) ∧
    ∃ M, calculate_max_drawdown [1, 6/5, 9/10, 11/10] = some M ∧
      specMaxDrawdown [1, 6/5, 9/10, 11/10] = some M ∧ 0 ≤ M :=
  ⟨⟨by simp, by norm_num [List.forall_mem_cons]⟩,
    (calculate_max_drawdown_spec [1, 6/5, 9/10, 11/10] (by simp)
      (by norm_num [List.forall_mem_cons])).1⟩

/-- Claim C5: buy updates units and cost basis by the weighted average
(`(0,0)` when total units vanish), sell floors units at 0 and leaves the cost
basis unchanged; with the worked example of the spec. -/
theorem calculate_new_cost_spec (old_share old_cost t p : ℚ) :
    (0 < old_share + t →
       calculate_new_cost old_share old_cost t p TradeType.buy =
         (old_share + t, (old_share * old_cost + t * p) / (old_share + t))) ∧
    (old_share + t = 0 →
       calculate_new_cost old_share old_cost t p TradeType.buy = (0, 0)) ∧
    calculate_new_cost old_share old_cost t p TradeType.sell =
      (max (old_share - t) 0, old_cost) ∧
    calculate_new_cost 100 1 100 2 TradeType.buy = (200, 3/2) ∧
    calculate_new_cost 200 (3/2) 50 2 TradeType.sell = (150, 3/2) := by
  refine ⟨?_, ?_, ?_, by norm_num [calculate_new_cost], by norm_num [calculate_new_cost]⟩
  · intro h
    simp only [calculate_new_cost]
    rw [if_neg h.ne']
  · intro h
    simp only [calculate_new_cost]
    rw [if_pos h]
  · simp only [calculate_new_cost]
    rcases lt_or_le (old_share - t) 0 with h | h
    · rw [if_pos h, max_eq_right h.le]
    · rw [if_neg (not_lt.mpr h), max_eq_left h]

theorem calculate_new_cost_spec_witness :
    (0 : ℚ) < 100 + 100 ∧
    calculate_new_cost 100 1 100 2 TradeType.buy =
      (100 + 100, (100 * 1 + 100 * 2) / (100 + 100)) :=
  ⟨by norm_num, (calculate_new_cost_spec 100 1 100 2).1 (by norm_num)⟩

/-! ## Tick store (`database.py`)

`intraday_ticks` rows are `(fund_code, record_time, pct, price)` with a
`UNIQUE(fund_code, record_time)` constraint.  `record_time` is an ISO
`YYYY-MM-DD HH:MM:SS` string; since every field is zero padded, SQLite's
string comparison coincides with the lexicographic order on the
`(day, hour, minute, second)` tuple, which is how timestamps are modelled
here (`day` is the date as a day number). -/

structure Timestamp where
  day : ℤ
  hh : ℕ
  mm : ℕ
  ss : ℕ
  deriving DecidableEq, Repr

structure TickRow where
  fund_code : String
  record_time : Timestamp
  pct : ℚ
  price : ℚ
  deriving DecidableEq, Repr

def tickKey (t : TickRow) : String × Timestamp := (t.fund_code, t.record_time)

/-- A row with the given `(fund_code, record_time)` key is present. -/
def HasKey (table : List TickRow) (k : String × Timestamp) : Prop :=
  ∃ u ∈ table, tickKey u = k

instance (table : List TickRow) (k : String × Timestamp) : Decidable (HasKey table k) := by
  unfold HasKey
  exact List.decidableBEx _ table

/-- Embedding of `database.save_tick_batch(ticks_data)`: `executemany` of
`INSERT OR IGNORE`, i.e. each tuple is appended unless a row with the same
`(fund_code, record_time)` key already exists. -/
def save_tick_batch : List TickRow → List TickRow → List TickRow
  | table, [] => table
  | table, t :: rest =>
      if HasKey table (tickKey t) then save_tick_batch table rest
      else save_tick_batch (table ++ [t]) rest

/-- `record_time` order (SQLite `ORDER BY record_time ASC` on the ISO strings). -/
def tsLe (a b : Timestamp) : Prop :=
  a.day < b.day ∨ (a.day = b.day ∧ (a.hh < b.hh ∨ (a.hh = b.hh ∧
    (a.mm < b.mm ∨ (a.mm = b.mm ∧ a.ss ≤ b.ss)))))

instance (a b : Timestamp) : Decidable (tsLe a b) := by
  unfold tsLe
  infer_instance

def insertByTime (t : TickRow) : List TickRow → List TickRow
  | [] => [t]
  | u :: rest =>
      if tsLe t.record_time u.record_time then t :: u :: rest
      else u :: insertByTime t rest

def sortByTime : List TickRow → List TickRow
  | [] => []
  | t :: rest => insertByTime t (sortByTime rest)

/-- Embedding of `database.get_today_ticks(fund_code)`: rows of the given fund
whose `record_time` starts with today's date (`LIKE 'YYYY-MM-DD%'`, i.e. the
day component equals `today`), ordered by `record_time` ascending. -/
def get_today_ticks (table : List TickRow) (fund_code : String) (today : ℤ) : List TickRow :=
  sortByTime (table.filter
    (fun t => decide (t.fund_code = fund_code ∧ t.record_time.day = today)))

/-- Embedding of `database.cleanup_old_ticks(days_to_keep=2)`.  The SQL is
`DELETE FROM intraday_ticks WHERE record_time < date('now','-3 days')`: the
`days_to_keep` argument is never read, the cutoff is hard-coded to three days
before today.  A row's ISO string compares `<` the bare cutoff date string
exactly when its day component is smaller, since on equal date prefixes the
longer row string compares greater. -/
def cleanup_old_ticks (days_to_keep : ℕ) (today : ℤ) (table : List TickRow) : List TickRow :=
  table.filter (fun t => decide ¬(t.record_time.day < today - 3))

/-- The behaviour claimed for pruning: delete exactly the ticks strictly older
than the retention window given by the `retention_days` argument. -/
def claimedCleanup (retention_days : ℕ) (today : ℤ) (table : List TickRow) : List TickRow :=
  table.filter (fun t => decide ¬(t.record_time.day < today - retention_days))

def countKey (table : List TickRow) (k : String × Timestamp) : ℕ :=
  (table.filter (fun u => decide (tickKey u = k))).length

/-- The `UNIQUE(fund_code, record_time)` table invariant. -/
def keysNodup (table : List TickRow) : Prop := (table.map tickKey).Nodup

lemma hasKey_append_singleton (table : List TickRow) (t : TickRow) (k : String × Timestamp) :
    HasKey (table ++ [t]) k ↔ HasKey table k ∨ tickKey t = k := by
  simp [HasKey, or_and_right, exists_or]

lemma hasKey_save (k : String × Timestamp) :
    ∀ (batch table : List TickRow),
      HasKey (save_tick_batch table batch) k ↔
        HasKey table k ∨ ∃ t ∈ batch, tickKey t = k := by
  intro batch
  induction batch with
  | nil => intro table; simp [save_tick_batch]
  | cons t rest ih =>
    intro table
    rw [save_tick_batch]
    by_cases h : HasKey table (tickKey t)
    · rw [if_pos h, ih]
      constructor
      · rintro (h1 | h2)
        · exact Or.inl h1
        · exact Or.inr (by simpa using Or.inr h2)
      · rintro (h1 | h2)
        · exact Or.inl h1
        · simp only [List.mem_cons] at h2
          obtain ⟨u, hu | hu, hk⟩ := h2
          · subst hu
            obtain ⟨v, hv, hvk⟩ := h
            exact Or.inl ⟨v, hv, hvk.trans hk⟩
          · exact Or.inr ⟨u, hu, hk⟩
    · rw [if_neg h, ih, hasKey_append_singleton]
      constructor
      · rintro ((h1 | h1) | h2)
        · exact Or.inl h1
        · exact Or.inr ⟨t, List.mem_cons_self t rest, h1⟩
        · obtain ⟨u, hu, hk⟩ := h2
          exact Or.inr ⟨u, List.mem_cons_of_mem t hu, hk⟩
      · rintro (h1 | h2)
        · exact Or.inl (Or.inl h1)
        · simp only [List.mem_cons] at h2
          obtain ⟨u, hu | hu, hk⟩ := h2
          · exact Or.inl (Or.inr (hu ▸ hk))
          · exact Or.inr ⟨u, hu, hk⟩

lemma save_all_present :
    ∀ (batch table : List TickRow),
      (∀ t ∈ batch, HasKey table (tickKey t)) → save_tick_batch table batch = table := by
  intro batch
  induction batch with
  | nil => intro table _; rfl
  | cons t rest ih =>
    intro table h
    rw [save_tick_batch, if_pos (h t (List.mem_cons_self t rest))]
    exact ih table (fun u hu => h u (List.mem_cons_of_mem t hu))

lemma keysNodup_save :
    ∀ (batch table : List TickRow), keysNodup table → keysNodup (save_tick_batch table batch) := by
  intro batch
  induction batch with
  | nil => intro table h; exact h
  | cons t rest ih =>
    intro table h
    rw [save_tick_batch]
    by_cases hk : HasKey table (tickKey t)
    · rw [if_pos hk]; exact ih table h
    · rw [if_neg hk]
      refine ih (table ++ [t]) ?_
      unfold keysNodup at h ⊢
      rw [List.map_append, List.nodup_append]
      refine ⟨h, List.nodup_singleton _, ?_⟩
      intro x hx hx'
      simp only [List.map_cons, List.map_nil, List.mem_singleton] at hx'
      subst hx'
      obtain ⟨u, hu, hq⟩ := List.mem_map.mp hx
      exact hk ⟨u, hu, hq⟩

lemma countKey_eq_zero {table : List TickRow} {k : String × Timestamp}
    (h : ¬ HasKey table k) : countKey table k = 0 := by
  unfold countKey
  rw [List.length_eq_zero, List.filter_eq_nil]
  intro u hu
  simp only [decide_eq_true_eq]
  exact fun hk => h ⟨u, hu, hk⟩

lemma countKey_eq_one :
    ∀ (table : List TickRow) (k : String × Timestamp),
      keysNodup table → HasKey table k → countKey table k = 1 := by
  intro table
  induction table with
  | nil => intro k _ h; exact absurd h (by simp [HasKey])
  | cons u rest ih =>
    intro k hn hk
    unfold keysNodup at hn
    simp only [List.map_cons, List.nodup_cons] at hn
    by_cases hu : tickKey u = k
    · have hrest : ¬ HasKey rest k := by
        rintro ⟨v, hv, hvk⟩
        exact hn.1 (hu ▸ hvk ▸ List.mem_map_of_mem tickKey hv)
      unfold countKey
      rw [List.filter_cons_of_pos (by simpa using hu)]
      have := countKey_eq_zero hrest
      unfold countKey at this
      simp [this]
    · have hrest : HasKey rest k := by
        obtain ⟨v, hv, hvk⟩ := hk
        rcases List.mem_cons.mp hv with rfl | hv'
        · exact absurd hvk hu
        · exact ⟨v, hv', hvk⟩
      unfold countKey
      rw [List.filter_cons_of_neg (by simpa using hu)]
      exact ih k hn.2 hrest

/-- Claim C2: `save_tick_batch` is idempotent per `(fund_code, record_time)`
key: starting from any table with unique keys, after the batch append the keys
are still unique, every batch tuple is stored exactly once, and repeating the
identical batch changes nothing — in particular the today-read is unchanged
after the second call. -/
theorem save_tick_batch_idempotent (table batch : List TickRow) (h : keysNodup table) :
    keysNodup (save_tick_batch table batch) ∧
    (∀ t ∈ batch, countKey (save_tick_batch table batch) (tickKey t) = 1) ∧
    save_tick_batch (save_tick_batch table batch) batch = save_tick_batch table batch ∧
    (∀ c d, get_today_ticks (save_tick_batch (save_tick_batch table batch) batch) c d =
       get_today_ticks (save_tick_batch table batch) c d) := by
  have hnodup := keysNodup_save batch table h
  have hidem : save_tick_batch (save_tick_batch table batch) batch =
      save_tick_batch table batch := by
    refine save_all_present batch _ ?_
    intro t ht
    exact (hasKey_save (tickKey t) batch table).mpr (Or.inr ⟨t, ht, rfl⟩)
  refine ⟨hnodup, ?_, hidem, ?_⟩
  · intro t ht
    exact countKey_eq_one _ _ hnodup
      ((hasKey_save (tickKey t) batch table).mpr (Or.inr ⟨t, ht, rfl⟩))
  · intro c d
    rw [hidem]

theorem save_tick_batch_idempotent_witness :
    keysNodup ([] : List TickRow) ∧
    save_tick_batch
        (save_tick_batch []
          [⟨"000001", ⟨0, 9, 30, 0⟩, 1, 2⟩, ⟨"000001", ⟨0, 9, 30, 0⟩, 1, 2⟩])
        [⟨"000001", ⟨0, 9, 30, 0⟩, 1, 2⟩, ⟨"000001", ⟨0, 9, 30, 0⟩, 1, 2⟩] =
      save_tick_batch []
        [⟨"000001", ⟨0, 9, 30, 0⟩, 1, 2⟩, ⟨"000001", ⟨0, 9, 30, 0⟩, 1, 2⟩] :=
  ⟨by simp [keysNodup],
    (save_tick_batch_idempotent []
      [⟨"000001", ⟨0, 9, 30, 0⟩, 1, 2⟩, ⟨"000001", ⟨0, 9, 30, 0⟩, 1, 2⟩]
      (by simp [keysNodup])).2.2.1⟩

/-- Claim C4, counterexample: called with its own default argument
`days_to_keep = 2`, `cleanup_old_ticks` keeps a tick that is 3 days old, while
the claimed behaviour (delete everything strictly older than the
`retention_days` window) would delete it. -/
theorem cleanup_old_ticks_counterexample :
    cleanup_old_ticks 2 0 [⟨"000001", ⟨-3, 10, 0, 0⟩, 1, 1⟩] =
      [⟨"000001", ⟨-3, 10, 0, 0⟩, 1, 1⟩] ∧
    claimedCleanup 2 0 [⟨"000001", ⟨-3, 10, 0, 0⟩, 1, 1⟩] = [] := by
  constructor
  · simp [cleanup_old_ticks]
  · simp [claimedCleanup]

/-- Claim C4 (amended): `cleanup_old_ticks` ignores its `days_to_keep`
argument and always deletes exactly the ticks whose date is strictly before
`today - 3` (a fixed 3-day window); in particular it never deletes a tick of
the current calendar day, and every tick inside the window is kept unchanged. -/
theorem cleanup_old_ticks_spec (days_to_keep : ℕ) (today : ℤ) (table : List TickRow) :
    cleanup_old_ticks days_to_keep today table = claimedCleanup 3 today table ∧
    (∀ t ∈ table, t.record_time.day = today → t ∈ cleanup_old_ticks days_to_keep today table) ∧
    (∀ t ∈ table, today - 3 ≤ t.record_time.day →
      t ∈ cleanup_old_ticks days_to_keep today table) ∧
    (∀ t ∈ table, t.record_time.day < today - 3 →
      t ∉ cleanup_old_ticks days_to_keep today table) := by
  refine ⟨rfl, ?_, ?_, ?_⟩
  · intro t ht hd
    rw [cleanup_old_ticks, List.mem_filter]
    exact ⟨ht, by simp [hd]⟩
  · intro t ht hd
    rw [cleanup_old_ticks, List.mem_filter]
    exact ⟨ht, by simp; linarith⟩
  · intro t ht hd hmem
    rw [cleanup_old_ticks, List.mem_filter] at hmem
    simp only [decide_eq_true_eq] at hmem
    exact hmem.2 hd

theorem cleanup_old_ticks_spec_witness :
    ((⟨"000001", ⟨5, 9, 30, 0⟩, 1, 1⟩ : TickRow) ∈
        [(⟨"000001", ⟨5, 9, 30, 0⟩, 1, 1⟩ : TickRow)] ∧
      (⟨"000001", ⟨5, 9, 30, 0⟩, 1, 1⟩ : TickRow).record_time.day = 5) ∧
    (⟨"000001", ⟨5, 9, 30, 0⟩, 1, 1⟩ : TickRow) ∈
      cleanup_old_ticks 2 5 [⟨"000001", ⟨5, 9, 30, 0⟩, 1, 1⟩] :=
  ⟨⟨List.mem_singleton_self _, rfl⟩,
    (cleanup_old_ticks_spec 2 5 [⟨"000001", ⟨5, 9, 30, 0⟩, 1, 1⟩]).2.1
      ⟨"000001", ⟨5, 9, 30, 0⟩, 1, 1⟩ (List.mem_singleton_self _) rfl⟩

/-! ## Continuity merger (`app.py`, intraday chart merge block)

Local ticks are rendered as `'%H:%M:%S'` strings, remote trend points as
`'%H:%M'` strings (`get_batch_intraday_trends`).  The merge keeps a remote
point `t` iff `t < first_db_time` as *strings*.  Both formats are zero padded,
so the comparison of `'HH:MM'` against `'HH:MM:SS'` holds iff the remote
`(hh, mm)` is lexicographically ≤ the local `(hh, mm)` — on an equal `HH:MM`
prefix the shorter remote string always compares less. -/

structure LocalTick where
  hh : ℕ
  mm : ℕ
  ss : ℕ
  pct : ℚ
  deriving DecidableEq, Repr

structure ApiPoint where
  hh : ℕ
  mm : ℕ
  pct : ℚ
  deriving DecidableEq, Repr

/-- An x-axis value of the merged chart: either a remote `'HH:MM'` label or a
local `'HH:MM:SS'` label. -/
inductive ChartTime
  | hm (hh mm : ℕ)
  | hms (hh mm ss : ℕ)
  deriving DecidableEq, Repr

/-- Time of day denoted by a chart label, in seconds. -/
def chartTimeSec : ChartTime → ℕ
  | ChartTime.hm h m => 3600 * h + 60 * m
  | ChartTime.hms h m s => 3600 * h + 60 * m + s

def apiSec (a : ApiPoint) : ℕ := 3600 * a.hh + 60 * a.mm

def localSec (t : LocalTick) : ℕ := 3600 * t.hh + 60 * t.mm + t.ss

/-- The string comparison `'HH:MM' < 'HH:MM:SS'` performed by the source. -/
def apiStrBefore (a : ApiPoint) (f : LocalTick) : Prop :=
  a.hh < f.hh ∨ (a.hh = f.hh ∧ (a.mm < f.mm ∨ a.mm = f.mm))

instance (a : ApiPoint) (f : LocalTick) : Decidable (apiStrBefore a f) := by
  unfold apiStrBefore
  infer_instance

/-- Embedding of the inline merge in `app.py`: with local DB ticks present,
keep the remote points whose time string compares `<` the first local tick's
time string and prepend them; with no local ticks, fall back entirely to the
remote series. -/
def merge_intraday_chart (db : List LocalTick) (api : List ApiPoint) :
    List (ChartTime × ℚ) :=
  match db with
  | [] => api.map (fun a => (ChartTime.hm a.hh a.mm, a.pct))
  | first :: _ =>
      (api.filter (fun a => decide (apiStrBefore a first))).map
          (fun a => (ChartTime.hm a.hh a.mm, a.pct)) ++
        db.map (fun t => (ChartTime.hms t.hh t.mm t.ss, t.pct))

/-- Claim C1, counterexample: one local tick at `09:35:00` and one remote
point at `09:35`.  The remote point's time does *not* strictly precede the
first local tick (they denote the same instant), yet the merge keeps it, and
the merged series carries two entries with the same timestamp. -/
theorem merge_intraday_chart_counterexample :
    merge_intraday_chart [⟨9, 35, 0, 1⟩] [⟨9, 35, 1/2⟩] =
      [(ChartTime.hm 9 35, 1/2), (ChartTime.hms 9 35 0, 1)] ∧
    chartTimeSec (ChartTime.hm 9 35) = chartTimeSec (ChartTime.hms 9 35 0) := by
  constructor
  · simp [merge_intraday_chart, apiStrBefore]
  · rfl

lemma apiStrBefore_iff_sec_lt (a : ApiPoint) (f : LocalTick)
    (hmm : a.mm < 60) (hfm : f.mm < 60) (hss : f.ss < 60)
    (hne : apiSec a ≠ localSec f) :
    apiStrBefore a f ↔ apiSec a < localSec f := by
  unfold apiStrBefore apiSec localSec at *
  omega

/-- Claim C1 (amended): when no remote point falls at exactly the first local
tick's instant (in particular whenever the first local tick is not on an exact
minute boundary), the merged chart is exactly the remote points strictly
preceding the first local tick followed by all local ticks, is strictly
ascending in time, and has no duplicate timestamps.  (When the first local
tick falls exactly on a minute boundary, a remote point at that same minute is
also kept — see the counterexample.) -/
theorem merge_intraday_chart_spec (f : LocalTick) (rest : List LocalTick)
    (api : List ApiPoint)
    (hdb : List.Pairwise (fun a b => localSec a < localSec b) (f :: rest))
    (hapi : List.Pairwise (fun a b => apiSec a < apiSec b) api)
    (hmm : ∀ a ∈ api, a.mm < 60) (hfm : f.mm < 60) (hss : f.ss < 60)
    (hne : ∀ a ∈ api, apiSec a ≠ localSec f) :
    merge_intraday_chart (f :: rest) api =
      (api.filter (fun a => decide (apiSec a < localSec f))).map
          (fun a => (ChartTime.hm a.hh a.mm, a.pct)) ++
        (f :: rest).map (fun t => (ChartTime.hms t.hh t.mm t.ss, t.pct)) ∧
    List.Pairwise (fun x y => chartTimeSec x.1 < chartTimeSec y.1)
      (merge_intraday_chart (f :: rest) api) ∧
    List.Pairwise (fun x y => chartTimeSec x.1 ≠ chartTimeSec y.1)
      (merge_intraday_chart (f :: rest) api) := by
  have hfilter : api.filter (fun a => decide (apiStrBefore a f)) =
      api.filter (fun a => decide (apiSec a < localSec f)) := by
    apply List.filter_congr
    intro a ha
    have := apiStrBefore_iff_sec_lt a f (hmm a ha) hfm hss (hne a ha)
    simp [this]
  have heq : merge_intraday_chart (f :: rest) api =
      (api.filter (fun a => decide (apiSec a < localSec f))).map
          (fun a => (ChartTime.hm a.hh a.mm, a.pct)) ++
        (f :: rest).map (fun t => (ChartTime.hms t.hh t.mm t.ss, t.pct)) := by
    rw [merge_intraday_chart, hfilter]
  have hasc : List.Pairwise (fun x y => chartTimeSec x.1 < chartTimeSec y.1)
      (merge_intraday_chart (f :: rest) api) := by
    rw [heq, List.pairwise_append]
    refine ⟨?_, ?_, ?_⟩
    · rw [List.pairwise_map]
      refine List.Pairwise.filter _ ?_
      exact hapi.imp (fun {a b} h => h)
    · rw [List.pairwise_map]
      exact hdb.imp (fun {a b} h => h)
    · intro x hx y hy
      obtain ⟨a, ha, rfl⟩ := List.mem_map.mp hx
      obtain ⟨t, ht, rfl⟩ := List.mem_map.mp hy
      have ha' : apiSec a < localSec f := by
        have := (List.mem_filter.mp ha).2
        simpa using this
      have ht' : localSec f ≤ localSec t := by
        rcases List.mem_cons.mp ht with rfl | ht''
        · exact le_rfl
        · exact ((List.pairwise_cons.mp hdb).1 t ht'').le
      show 3600 * a.hh + 60 * a.mm < 3600 * t.hh + 60 * t.mm + t.ss
      have : apiSec a < localSec t := lt_of_lt_of_le ha' ht'
      unfold apiSec localSec at this
      exact this
  exact ⟨heq, hasc, hasc.imp (fun {x y} h => ne_of_lt h)⟩

theorem merge_intraday_chart_spec_witness :
    (List.Pairwise (fun a b => localSec a < localSec b)
        [(⟨9, 35, 7, 1⟩ : LocalTick), ⟨9, 40, 0, 2⟩] ∧
      List.Pairwise (fun a b => apiSec a < apiSec b)
        [(⟨9, 15, 1/4⟩ : ApiPoint), ⟨9, 35, 1/2⟩, ⟨9, 45, 3/4⟩] ∧
      (∀ a ∈ [(⟨9, 15, 1/4⟩ : ApiPoint), ⟨9, 35, 1/2⟩, ⟨9, 45, 3/4⟩], a.mm < 60) ∧
      (⟨9, 35, 7, 1⟩ : LocalTick).mm < 60 ∧ (⟨9, 35, 7, 1⟩ : LocalTick).ss < 60 ∧
      (∀ a ∈ [(⟨9, 15, 1/4⟩ : ApiPoint), ⟨9, 35, 1/2⟩, ⟨9, 45, 3/4⟩],
        apiSec a ≠ localSec ⟨9, 35, 7, 1⟩)) ∧
    merge_intraday_chart [⟨9, 35, 7, 1⟩, ⟨9, 40, 0, 2⟩]
        [⟨9, 15, 1/4⟩, ⟨9, 35, 1/2⟩, ⟨9, 45, 3/4⟩] =
      (([⟨9, 15, 1/4⟩, ⟨9, 35, 1/2⟩, ⟨9, 45, 3/4⟩] : List ApiPoint).filter
          (fun a => decide (apiSec a < localSec ⟨9, 35, 7, 1⟩))).map
          (fun a => (ChartTime.hm a.hh a.mm, a.pct)) ++
        ([⟨9, 35, 7, 1⟩, ⟨9, 40, 0, 2⟩] : List LocalTick).map
          (fun t => (ChartTime.hms t.hh t.mm t.ss, t.pct)) :=
  ⟨⟨by simp [localSec], by simp [apiSec], by simp [List.forall_mem_cons], by simp, by simp,
      by simp [List.forall_mem_cons, apiSec, localSec]⟩,
    (merge_intraday_chart_spec ⟨9, 35, 7, 1⟩ [⟨9, 40, 0, 2⟩]
      [⟨9, 15, 1/4⟩, ⟨9, 35, 1/2⟩, ⟨9, 45, 3/4⟩]
      (by simp [localSec]) (by simp [apiSec]) (by simp [List.forall_mem_cons])
      (by simp) (by simp) (by simp [List.forall_mem_cons, apiSec, localSec])).1⟩

/-! ## Fallback resolver (`data_api.py`, `get_real_time_estimate`)

`_fetch_single_fund_realtime` returns `None` exactly when every live source
(Sina, then Tiantian) fails; otherwise a dict with keys
`gz, zzl, est_date, pre_close, confirmed_nav`.  Numeric fields are modelled as
`Option ℚ`: `none` stands for an absent/falsy value or one on which `float()`
raises (both are swallowed by the surrounding `try/except` in the same way for
the fields below). -/

structure EstData where
  gz : Option ℚ
  zzl : Option ℚ
  est_date : String
  pre_close : Option ℚ
  confirmed_nav : Option ℚ
  deriving Repr

/-- The check `est_data.get(k) and float(est_data[k]) > 0`: a missing value or
a value that is falsy / not positive fails the test. -/
def posVal : Option ℚ → Option ℚ
  | some q => if 0 < q then some q else none
  | none => none

/-- `roundHalfEven q` is Python's `round` to the nearest integer,
ties going to the even neighbour. -/
def roundHalfEven (q : ℚ) : ℤ :=
  if q - ⌊q⌋ = 1/2 then (if Even ⌊q⌋ then ⌊q⌋ else ⌊q⌋ + 1) else round q

/-- Python's `round(q, n)` (on the exact rational denotation of the float). -/
def pyRound (n : ℕ) (q : ℚ) : ℚ := (roundHalfEven (q * 10 ^ n) : ℚ) / 10 ^ n

/-- The dict returned by `get_real_time_estimate`.  `is_error : Option Bool`
because the live-quote dict carries no `is_error` key at all (`none`), while
the fallback dict sets it to a boolean. -/
structure RTEstimate where
  gz : ℚ
  zzl : ℚ
  time : String
  data_date : String
  last_nav : ℚ
  last_date : String
  pre_close : ℚ
  is_error : Option Bool
  deriving DecidableEq, Repr

/-- Step 2 of `get_real_time_estimate`: the last confirmed NAV and its label,
from the estimate payload if possible, else from the NAV history
(`(date, nav)` pairs, the last row being the latest). -/
def lastNavPair (est_data : Option EstData) (history : List (String × ℚ)) :
    Option ℚ × String :=
  let fromEst : Option ℚ × String :=
    match est_data with
    | none => (none, "--")
    | some e =>
        match posVal e.confirmed_nav with
        | some q => (some q, e.est_date)
        | none =>
            match posVal e.pre_close with
            | some p => (some p, "前一交易日")
            | none => (none, "--")
  match fromEst.1 with
  | some _ => fromEst
  | none =>
      match history.getLast? with
      | some (d, nav) => (some nav, d)
      | none => (none, fromEst.2)

/-- `last_nav if last_nav else d`: `None` and `0.0` are both falsy. -/
def lastNavOr (v : Option ℚ) (d : ℚ) : ℚ :=
  match v with
  | some q => if q = 0 then d else q
  | none => d

/-- The final-fallback dict of `get_real_time_estimate` (live data absent or
unparsable). -/
def rtFallback (lp : Option ℚ × String) : RTEstimate :=
  { gz := lastNavOr lp.1 0
    zzl := 0
    time := "数据暂不可用"
    data_date := lp.2
    last_nav := lastNavOr lp.1 0
    last_date := lp.2
    pre_close := lastNavOr lp.1 0
    is_error := some lp.1.isNone }

/-- Embedding of `data_api.get_real_time_estimate`.  `est_data` is the result
of the live fetch (`none` = every live source failed); `history` is the cached
NAV history; `nowTime` is `datetime.now().strftime('%H:%M:%S')`. -/
def get_real_time_estimate (est_data : Option EstData)
    (history : List (String × ℚ)) (nowTime : String) : RTEstimate :=
  let lp := lastNavPair est_data history
  match est_data with
  | some e =>
      match e.gz, e.zzl with
      | some g, some z =>
          { gz := pyRound 4 g
            zzl := pyRound 2 z
            time := nowTime
            data_date := e.est_date
            last_nav := lastNavOr lp.1 g
            last_date := lp.2
            pre_close := match e.pre_close with | some p => p | none => 0
            is_error := none }
      | _, _ => rtFallback lp
  | none => rtFallback lp

/-- Claim C3, counterexample: every live source fails (`est_data = none`) but
a historical NAV `1.5` exists.  The result does carry the last known NAV, yet
its staleness flag is `is_error = false`, not `true`. -/
theorem get_real_time_estimate_counterexample :
    (get_real_time_estimate none [("2024-01-01", 3/2)] "10:00:00").is_error = some false ∧
    (get_real_time_estimate none [("2024-01-01", 3/2)] "10:00:00").gz = 3/2 ∧
    (get_real_time_estimate none [("2024-01-01", 3/2)] "10:00:00").last_nav = 3/2 ∧
    (get_real_time_estimate none [("2024-01-01", 3/2)] "10:00:00").time = "数据暂不可用" := by
  refine ⟨?_, ?_, ?_, ?_⟩ <;>
    simp [get_real_time_estimate, rtFallback, lastNavPair, lastNavOr]

/-- Claim C3 (amended): when every live source fails, `get_real_time_estimate`
returns a normal value (it is a total function, never an exception) whose
`gz`/`last_nav` carry the last known historical NAV and whose `time` field is
the sentinel `数据暂不可用`; the `is_error` flag is `true` only when no
historical NAV exists either (payload 0.0).  The fallback is distinguishable
from a live quote by the sentinel `time` and the presence of the `is_error`
key, not by `is_error = true`. -/
theorem get_real_time_estimate_fallback_spec (history : List (String × ℚ))
    (nowTime : String) :
    (get_real_time_estimate none history nowTime).time = "数据暂不可用" ∧
    (get_real_time_estimate none history nowTime).zzl = 0 ∧
    (history = [] →
      (get_real_time_estimate none history nowTime).is_error = some true ∧
      (get_real_time_estimate none history nowTime).gz = 0 ∧
      (get_real_time_estimate none history nowTime).last_date = "--") ∧
    (∀ d q, history.getLast? = some (d, q) → q ≠ 0 →
      (get_real_time_estimate none history nowTime).is_error = some false ∧
      (get_real_time_estimate none history nowTime).gz = q ∧
      (get_real_time_estimate none history nowTime).last_nav = q ∧
      (get_real_time_estimate none history nowTime).last_date = d) := by
  refine ⟨?_, ?_, ?_, ?_⟩
  · rcases h : history.getLast? with _ | ⟨d, q⟩ <;>
      simp [get_real_time_estimate, rtFallback, lastNavPair, h]
  · rcases h : history.getLast? with _ | ⟨d, q⟩ <;>
      simp [get_real_time_estimate, rtFallback, lastNavPair, h, lastNavOr]
  · intro h
    subst h
    refine ⟨?_, ?_, ?_⟩ <;>
      simp [get_real_time_estimate, rtFallback, lastNavPair, lastNavOr]
  · intro d q h hq
    refine ⟨?_, ?_, ?_, ?_⟩ <;>
      simp [get_real_time_estimate, rtFallback, lastNavPair, h, lastNavOr, hq]

theorem get_real_time_estimate_fallback_spec_witness :
    ([("2024-01-01", (3:ℚ)/2)].getLast? = some ("2024-01-01", (3:ℚ)/2) ∧ (3:ℚ)/2 ≠ 0) ∧
    (get_real_time_estimate none [("2024-01-01", 3/2)] "10:00:00").is_error = some false ∧
    (get_real_time_estimate none [("2024-01-01", 3/2)] "10:00:00").gz = 3/2 ∧
    (get_real_time_estimate none [("2024-01-01", 3/2)] "10:00:00").last_nav = 3/2 ∧
    (get_real_time_estimate none [("2024-01-01", 3/2)] "10:00:00").last_date = "2024-01-01" :=
  ⟨⟨rfl, by norm_num⟩,
    (get_real_time_estimate_fallback_spec [("2024-01-01", 3/2)] "10:00:00").2.2.2
      "2024-01-01" (3/2) rfl (by norm_num)⟩

/-! ## Sharpe ratio and fund diagnosis (`logic.py`) -/

/-- `Series.pct_change().dropna()`: consecutive relative changes. -/
def dailyReturns (navs : List ℚ) : List ℚ :=
  List.zipWith (fun prev cur => (cur - prev) / prev) navs navs.tail

def listMean (l : List ℚ) : ℚ := l.sum / l.length

/-- Sample variance with one delta degree of freedom, the square of pandas'
`Series.std()`. -/
def sampleVar (l : List ℚ) : ℚ :=
  (l.map (fun x => (x - listMean l) ^ 2)).sum / ((l.length : ℚ) - 1)

/-- `Series.std()` squared; pandas yields NaN on fewer than two samples,
modelled as `none`. -/
def sampleStdSq : List ℚ → Option ℚ :=
  fun l => if l.length < 2 then none else some (sampleVar l)

/-- Embedding of `logic.calculate_sharpe_ratio(nav_series, risk_free_rate=0.03)`:
guard `returns.std() == 0` (a NaN std — fewer than two returns — fails the
guard and propagates, modelled as `none`), else
`sqrt(252) * excess_returns.mean() / returns.std()`. -/
noncomputable def calculate_sharpe_ratio (navs : List ℚ) (risk_free_rate : ℚ) :
    Option ℝ :=
  match sampleStdSq (dailyReturns navs) with
  | none => none
  | some v =>
      if v = 0 then some 0
      else some (Real.sqrt 252 *
          ((listMean ((dailyReturns navs).map (fun r => r - risk_free_rate / 252)) : ℚ) : ℝ) /
          Real.sqrt (v : ℝ))

lemma listMean_map_sub (l : List ℚ) (c : ℚ) (h : l ≠ []) :
    listMean (l.map (fun r => r - c)) = listMean l - c := by
  have hsum : (l.map (fun r => r - c)).sum = l.sum - l.length * c := by
    induction l with
    | nil => simp
    | cons a t ih =>
      rcases t with _ | ⟨b, t'⟩
      · simp
      · simp only [List.map_cons, List.sum_cons, List.length_cons] at ih ⊢
        rw [ih (by simp)]
        push_cast
        ring
  have hn : ((l.length : ℚ)) ≠ 0 := by
    have : l.length ≠ 0 := fun hlen => h (List.length_eq_zero.mp hlen)
    exact_mod_cast this
  unfold listMean
  rw [List.length_map, hsum]
  field_simp

/-- Claim C9: the Sharpe computation never divides by zero — a zero standard
deviation of the daily returns yields exactly `0`, an undefined (NaN) standard
deviation propagates, and otherwise the result is
`sqrt(252) * mean(daily_return - rfr/252) / stddev`, with the excess mean
equal to `mean(daily_returns) - rfr/252`; default annual risk-free rate 3%. -/
theorem calculate_sharpe_ratio_spec (navs : List ℚ) :
    (sampleStdSq (dailyReturns navs) = some 0 →
      calculate_sharpe_ratio navs (3/100) = some 0) ∧
    (∀ v : ℚ, sampleStdSq (dailyReturns navs) = some v → v ≠ 0 →
      calculate_sharpe_ratio navs (3/100) =
        some (Real.sqrt 252 *
          ((listMean ((dailyReturns navs).map (fun r => r - (3/100) / 252)) : ℚ) : ℝ) /
          Real.sqrt (v : ℝ)) ∧
      listMean ((dailyReturns navs).map (fun r => r - (3/100) / 252)) =
        listMean (dailyReturns navs) - (3/100) / 252) ∧
    (sampleStdSq (dailyReturns navs) = none →
      calculate_sharpe_ratio navs (3/100) = none) := by
  refine ⟨?_, ?_, ?_⟩
  · intro h
    unfold calculate_sharpe_ratio
    rw [h]
    simp
  · intro v h hv
    constructor
    · unfold calculate_sharpe_ratio
      rw [h]
      simp [hv]
    · refine listMean_map_sub _ _ ?_
      intro hnil
      rw [sampleStdSq, hnil] at h
      simp at h
  · intro h
    unfold calculate_sharpe_ratio
    rw [h]

theorem calculate_sharpe_ratio_spec_witness :
    sampleStdSq (dailyReturns [1, 1, 1]) = some 0 ∧
    calculate_sharpe_ratio [1, 1, 1] (3/100) = some 0 :=
  ⟨by norm_num [sampleStdSq, dailyReturns, sampleVar, listMean],
    (calculate_sharpe_ratio_spec [1, 1, 1]).1
      (by norm_num [sampleStdSq, dailyReturns, sampleVar, listMean])⟩

/-- Result of `logic.diagnose_fund`.  The formatted metric strings
(`f"{x*100:.2f}%"` etc.) are modelled by their numeric payloads, with the
`'--'` placeholder of the insufficient-data branch modelled as `none`. -/
structure Diagnosis where
  score : ℚ
  stars : String
  conclusion : String
  return_1y : Option ℚ
  max_drawdown : Option ℚ
  sharpe : Option ℝ

/-- `'⭐' * int(score) + ('½' if score % 1 >= 0.5 else '')`. -/
def starsFor (score : ℚ) : String :=
  String.join (List.replicate ⌊score⌋.toNat "⭐") ++
    (if 1/2 ≤ score - ⌊score⌋ then "½" else "")

def conclusionFor (score : ℚ) : String :=
  if 9/2 ≤ score then "极优基金，业绩稳健，建议重点关注或持有。"
  else if 7/2 ≤ score then "表现良好，可作为组合配置的一部分。"
  else if 5/2 ≤ score then "表现中规中矩，建议持续观察。"
  else "近期表现不佳或风险过大，建议谨慎持有。"

/-- The return bonus/penalty of `diagnose_fund` (the `< -0.2` branch of the
source is shadowed by the preceding `< -0.1` branch; the chain is kept in
source order). -/
def returnDelta (tr : ℚ) : ℚ :=
  if 1/5 < tr then 1
  else if 1/10 < tr then 1/2
  else if tr < -(1/10) then -(1/2)
  else if tr < -(1/5) then -1
  else 0

/-- The drawdown penalty of `diagnose_fund` (the `> 0.35` branch is shadowed
by the preceding `> 0.25` branch). -/
def drawdownDelta (md : ℚ) : ℚ :=
  if md < 1/10 then 1/2
  else if 1/4 < md then -(1/2)
  else if 7/20 < md then -1
  else 0

/-- Embedding of `logic.diagnose_fund` on the fetched NAV history (the pure
part after `get_fund_nav_history`): fewer than 100 observations yield the
explicit insufficient-data result, otherwise the metrics and the thresholded
score, clamped to `[1, 5]` and rounded to one decimal. -/
noncomputable def diagnose_fund (navs : List ℚ) : Diagnosis :=
  if navs.length < 100 then
    { score := 0, stars := "N/A", conclusion := "数据不足，无法准确评级。",
      return_1y := none, max_drawdown := none, sharpe := none }
  else
    let total_return := (navs.getLastD 0 - navs.headD 0) / navs.headD 0
    -- `calculate_max_drawdown`/`calculate_sharpe_ratio` are defined (`some`)
    -- whenever `navs.length ≥ 100`; the `getD` defaults are unreachable.
    let max_dd := (calculate_max_drawdown navs).getD 0
    let sharpe := (calculate_sharpe_ratio navs (3/100)).getD 0
    let raw := 3 + returnDelta total_return + drawdownDelta max_dd +
      (if (3:ℝ)/2 < sharpe then 1/2 else 0)
    let clamped := max 1 (min 5 raw)
    { score := pyRound 1 clamped, stars := starsFor clamped,
      conclusion := conclusionFor clamped,
      return_1y := some total_return, max_drawdown := some max_dd,
      sharpe := some sharpe }

/-- Claim C7: any history with fewer than 100 observations (including the
empty one) makes `diagnose_fund` return the explicit insufficient-data
result — score 0, `N/A` stars, placeholder metrics — never a numeric rating. -/
theorem diagnose_fund_insufficient (navs : List ℚ) (h : navs.length < 100) :
    diagnose_fund navs =
      { score := 0, stars := "N/A", conclusion := "数据不足，无法准确评级。",
        return_1y := none, max_drawdown := none, sharpe := none } := by
  unfold diagnose_fund
  rw [if_pos h]

theorem diagnose_fund_insufficient_witness :
    ([] : List ℚ).length < 100 ∧
    diagnose_fund [] =
      { score := 0, stars := "N/A", conclusion := "数据不足，无法准确评级。",
        return_1y := none, max_drawdown := none, sharpe := none } :=
  ⟨by simp, diagnose_fund_insufficient [] (by simp)⟩

lemma roundHalfEven_bounds (x : ℚ) :
    x - 1/2 ≤ (roundHalfEven x : ℚ) ∧ (roundHalfEven x : ℚ) ≤ x + 1/2 := by
  unfold roundHalfEven
  split_ifs with h he
  · constructor <;> push_cast <;> linarith
  · constructor <;> push_cast <;> linarith
  · have := abs_sub_round x
    rw [abs_le] at this
    constructor <;> linarith [this.1, this.2]

lemma pyRound_one_bounds {q : ℚ} (h1 : 1 ≤ q) (h5 : q ≤ 5) :
    1 ≤ pyRound 1 q ∧ pyRound 1 q ≤ 5 := by
  obtain ⟨hl, hr⟩ := roundHalfEven_bounds (q * 10 ^ 1)
  have hq10 : (10 : ℚ) ≤ q * 10 ^ 1 := by norm_num; linarith
  have hq50 : q * 10 ^ 1 ≤ 50 := by norm_num; linarith
  set k := roundHalfEven (q * 10 ^ 1) with hk
  have hk19 : (19 : ℤ) ≤ 2 * k := by
    have : (19 : ℚ) ≤ 2 * (k : ℚ) := by linarith
    exact_mod_cast this
  have hk101 : 2 * k ≤ (101 : ℤ) := by
    have : 2 * (k : ℚ) ≤ 101 := by linarith
    exact_mod_cast this
  have hk10 : (10 : ℤ) ≤ k := by omega
  have hk50 : k ≤ (50 : ℤ) := by omega
  have hk10' : (10 : ℚ) ≤ (k : ℚ) := by exact_mod_cast hk10
  have hk50' : (k : ℚ) ≤ (50 : ℚ) := by exact_mod_cast hk50
  unfold pyRound
  rw [← hk]
  constructor
  · rw [le_div_iff (by norm_num : (0:ℚ) < 10 ^ 1)]
    norm_num
    linarith
  · rw [div_le_iff (by norm_num : (0:ℚ) < 10 ^ 1)]
    norm_num
    linarith

/-- Claim C10: the score from `diagnose_fund` is `0` exactly when the history
has fewer than 100 observations, and otherwise lies in `[1, 5]`; the two cases
never overlap, so `score == 0` alone identifies "cannot rate". -/
theorem diagnose_fund_score_range (navs : List ℚ) :
    ((diagnose_fund navs).score = 0 ↔ navs.length < 100) ∧
    (100 ≤ navs.length →
      1 ≤ (diagnose_fund navs).score ∧ (diagnose_fund navs).score ≤ 5) := by
  by_cases h : navs.length < 100
  · rw [diagnose_fund, if_pos h]
    exact ⟨by simpa using h, fun h100 => absurd h (by omega)⟩
  · have hbounds : 1 ≤ (diagnose_fund navs).score ∧ (diagnose_fund navs).score ≤ 5 := by
      rw [diagnose_fund, if_neg h]
      refine pyRound_one_bounds (le_max_left 1 _) (max_le (by norm_num) (min_le_left 5 _))
    refine ⟨?_, fun _ => hbounds⟩
    constructor
    · intro h0
      exact absurd h0 (by linarith [hbounds.1])
    · intro hlt
      exact absurd hlt h

theorem diagnose_fund_score_range_witness :
    100 ≤ (List.replicate 100 (1:ℚ)).length ∧
    1 ≤ (diagnose_fund (List.replicate 100 (1:ℚ))).score ∧
    (diagnose_fund (List.replicate 100 (1:ℚ))).score ≤ 5 :=
  ⟨by simp, (diagnose_fund_score_range (List.replicate 100 (1:ℚ))).2 (by simp)⟩

/-! ## SIP simulator (`logic.py`, `calculate_sip_returns`)

A history row carries the calendar fields the loop reads: year/month/day
(`strftime('%Y-%m')`, `.day`), the weekday (`Mon = 0`), the ISO calendar
year/week (`isocalendar()`), and the NAV.  Period labels `"YYYY-MM"` and
`"YYYY-WW"` are zero padded, so string equality coincides with equality of the
corresponding pairs of numbers. -/

structure SipRow where
  y : ℕ
  m : ℕ
  d : ℕ
  weekday : ℕ
  isoY : ℕ
  isoW : ℕ
  nav : ℚ
  deriving DecidableEq, Repr

/-- `'每周'` or `'每月'` (any other string never invests and yields `None`). -/
inductive Frequency
  | weekly
  | monthly
  deriving DecidableEq, Repr

def period (f : Frequency) (r : SipRow) : ℕ × ℕ :=
  match f with
  | Frequency.monthly => (r.y, r.m)
  | Frequency.weekly => (r.isoY, r.isoW)

/-- The execution-day test: monthly `current_date.day >= exec_day_int`;
weekly `current_date.weekday() >= target_weekday` with
`target_weekday = exec_day_int - 1` clamped into `[0, 4]`. -/
def qualifies (f : Frequency) (execDay : ℤ) (r : SipRow) : Prop :=
  match f with
  | Frequency.monthly => execDay ≤ (r.d : ℤ)
  | Frequency.weekly => min 4 (max 0 (execDay - 1)) ≤ (r.weekday : ℤ)

instance (f : Frequency) (execDay : ℤ) (r : SipRow) : Decidable (qualifies f execDay r) := by
  unfold qualifies
  cases f <;> infer_instance

/-- One entry of `invest_log`. -/
structure SipEntry where
  row : SipRow
  accumulated_share : ℚ
  total_invested : ℚ
  market_value : ℚ
  deriving DecidableEq, Repr

/-- The investment loop of `calculate_sip_returns`: walk the rows in order,
investing whenever the row's period differs from the period of the last
investment and the execution-day test passes. -/
def sipLog (f : Frequency) (execDay : ℤ) (amount : ℚ) :
    List SipRow → Option (ℕ × ℕ) → ℚ → ℚ → List SipEntry
  | [], _, _, _ => []
  | r :: rest, lastPeriod, invested, share =>
      if some (period f r) ≠ lastPeriod ∧ qualifies f execDay r then
        ⟨r, share + amount / r.nav, invested + amount,
            (share + amount / r.nav) * r.nav⟩ ::
          sipLog f execDay amount rest (some (period f r)) (invested + amount)
            (share + amount / r.nav)
      else sipLog f execDay amount rest lastPeriod invested share

/-- The loop described by the specification's words: exactly one purchase per
calendar period, at the first trading day of the period passing the
execution-day test; `seen` collects the periods already bought. -/
def specSipLog (f : Frequency) (execDay : ℤ) (amount : ℚ) :
    List SipRow → List (ℕ × ℕ) → ℚ → ℚ → List SipEntry
  | [], _, _, _ => []
  | r :: rest, seen, invested, share =>
      if qualifies f execDay r then
        if period f r ∈ seen then specSipLog f execDay amount rest seen invested share
        else
          ⟨r, share + amount / r.nav, invested + amount,
              (share + amount / r.nav) * r.nav⟩ ::
            specSipLog f execDay amount rest (period f r :: seen) (invested + amount)
              (share + amount / r.nav)
      else specSipLog f execDay amount rest seen invested share

structure SipResult where
  trend : List ℚ
  total_invested : ℚ
  final_value : ℚ
  yield_rate : ℚ
  optimistic_trend : List ℚ
  pessimistic_trend : List ℚ
  deriving DecidableEq, Repr

/-- Embedding of `logic.calculate_sip_returns` after the history fetch/filter:
run the loop over the (date-ascending) rows, return `None` when no purchase
happened, else the totals, the final value at the last row's NAV, the yield,
and the flat ±10% bands.  The `getLastD` defaults are unreachable: the log and
the rows are non-empty in the branch that uses them. -/
def calculate_sip_returns (f : Frequency) (execDay : ℤ) (amount : ℚ)
    (rows : List SipRow) : Option SipResult :=
  let log := sipLog f execDay amount rows none 0 0
  match log with
  | [] => none
  | e :: es =>
      let lastE := (e :: es).getLastD ⟨⟨0, 0, 0, 0, 0, 0, 0⟩, 0, 0, 0⟩
      let final_nav := (rows.getLastD ⟨0, 0, 0, 0, 0, 0, 0⟩).nav
      let final_value := lastE.accumulated_share * final_nav
      some
        { trend := (e :: es).map (fun x => x.market_value)
          total_invested := lastE.total_invested
          final_value := final_value
          yield_rate :=
            if 0 < lastE.total_invested then
              (final_value - lastE.total_invested) / lastE.total_invested
            else 0
          optimistic_trend := (e :: es).map (fun x => x.market_value * (11/10))
          pessimistic_trend := (e :: es).map (fun x => x.market_value * (9/10)) }

/-- `groupedB l` : once a value is left behind in `l`, it never recurs
(each value's occurrences form one contiguous block).  Date-sorted histories
have this property for both monthly and ISO-week period labels. -/
def groupedB : List (ℕ × ℕ) → Bool
  | [] => true
  | a :: l => (!(decide (a ∈ l)) || decide (l.head? = some a)) && groupedB l

lemma grouped_tail {a : ℕ × ℕ} {l : List (ℕ × ℕ)} (h : groupedB (a :: l) = true) :
    groupedB l = true := by
  simp only [groupedB, Bool.and_eq_true] at h
  exact h.2

lemma grouped_head {a : ℕ × ℕ} {l : List (ℕ × ℕ)} (h : groupedB (a :: l) = true) :
    a ∈ l → l.head? = some a := by
  intro hmem
  simp only [groupedB, Bool.and_eq_true, Bool.or_eq_true, Bool.not_eq_true',
    decide_eq_false_iff_not, decide_eq_true_eq] at h
  rcases h.1 with h1 | h2
  · exact absurd hmem h1
  · exact h2

lemma grouped_dropWhile {x : ℕ × ℕ} :
    ∀ {l : List (ℕ × ℕ)}, groupedB (x :: l) = true →
      x ∉ l.dropWhile (fun p => decide (p = x)) := by
  intro l
  induction l with
  | nil => intro _; simp
  | cons y l' ih =>
    intro hg
    by_cases hxy : y = x
    · subst hxy
      rw [List.dropWhile_cons_of_pos (by simp)]
      refine ih ?_
      have h1 := grouped_tail hg
      -- `groupedB (y :: y :: l')` gives `groupedB (y :: l')` directly
      exact h1
    · rw [List.dropWhile_cons_of_neg (by simpa using hxy)]
      intro hmem
      rcases List.mem_cons.mp hmem with h1 | h2
      · exact hxy h1.symm
      · have := grouped_head hg (List.mem_cons_of_mem y h2)
        simp only [List.head?_cons, Option.some.injEq] at this
        exact hxy this

lemma mem_of_mem_dropWhile {α : Type} {p : α → Bool} {a : α} {l : List α}
    (h : a ∈ l.dropWhile p) : a ∈ l :=
  (List.dropWhile_sublist p (l := l)).mem h

lemma sipLog_eq_specSipLog (f : Frequency) (execDay : ℤ) (amount : ℚ) :
    ∀ (rows : List SipRow) (lastP : Option (ℕ × ℕ)) (seen : List (ℕ × ℕ))
      (invested share : ℚ),
      groupedB (rows.map (period f)) = true →
      (∀ q, lastP = some q → q ∈ seen ∧
        q ∉ (rows.map (period f)).dropWhile (fun p => decide (p = q))) →
      (∀ p ∈ seen, lastP ≠ some p → p ∉ rows.map (period f)) →
      sipLog f execDay amount rows lastP invested share =
        specSipLog f execDay amount rows seen invested share := by
  intro rows
  induction rows with
  | nil => intro lastP seen invested share _ _ _; rfl
  | cons r rest ih =>
    intro lastP seen invested share hg hinv3 hinv4
    have hgtail : groupedB (rest.map (period f)) = true := by
      rw [List.map_cons] at hg
      exact grouped_tail hg
    by_cases hq : qualifies f execDay r
    · by_cases hseen : period f r ∈ seen
      · -- the period was already bought: both sides skip
        have hlast : lastP = some (period f r) := by
          by_contra hne
          exact hinv4 (period f r) hseen hne
            (by rw [List.map_cons]; exact List.mem_cons_self _ _)
        rw [sipLog, specSipLog, if_neg (by simp [hlast]), if_pos hq, if_pos hseen]
        refine ih lastP seen invested share hgtail ?_ ?_
        · intro q hqq
          obtain ⟨hq1, hq2⟩ := hinv3 q hqq
          refine ⟨hq1, ?_⟩
          have hqr : q = period f r := by
            rw [hlast] at hqq
            exact (Option.some.injEq _ _ ▸ hqq).symm ▸ rfl
          rw [List.map_cons, List.dropWhile_cons_of_pos (by simp [hqr])] at hq2
          exact hq2
        · intro p hp hne
          have := hinv4 p hp hne
          rw [List.map_cons] at this
          exact fun hmem => this (List.mem_cons_of_mem _ hmem)
      · -- a fresh period: both sides invest
        have hlast : lastP ≠ some (period f r) := by
          intro hcon
          exact hseen (hinv3 (period f r) hcon).1
        rw [sipLog, specSipLog, if_pos ⟨by simpa using fun hcon => hlast hcon.symm, hq⟩,
          if_pos hq, if_neg hseen]
        congr 1
        refine ih (some (period f r)) (period f r :: seen) _ _ hgtail ?_ ?_
        · intro q hqq
          have hqr : q = period f r := by
            simpa using hqq.symm
          subst hqr
          refine ⟨List.mem_cons_self _ _, ?_⟩
          refine grouped_dropWhile ?_
          rw [List.map_cons] at hg
          exact hg
        · intro p hp hne
          have hpr : p ≠ period f r := fun hcon => hne (by rw [hcon])
          rcases List.mem_cons.mp hp with h1 | h2
          · exact absurd h1 hpr
          · by_cases hlp : lastP = some p
            · have := (hinv3 p hlp).2
              rw [List.map_cons, List.dropWhile_cons_of_neg
                (by simpa using fun hcon => hpr hcon.symm)] at this
              exact fun hmem => this (List.mem_cons_of_mem _ hmem)
            · have := hinv4 p h2 hlp
              rw [List.map_cons] at this
              exact fun hmem => this (List.mem_cons_of_mem _ hmem)
    · -- the execution-day test fails: both sides skip
      rw [sipLog, specSipLog, if_neg (by simp [hq]), if_neg hq]
      refine ih lastP seen invested share hgtail ?_ ?_
      · intro q hqq
        obtain ⟨hq1, hq2⟩ := hinv3 q hqq
        refine ⟨hq1, ?_⟩
        by_cases hqr : period f r = q
        · rw [List.map_cons, List.dropWhile_cons_of_pos (by simp [hqr])] at hq2
          exact hq2
        · rw [List.map_cons, List.dropWhile_cons_of_neg (by simpa using hqr)] at hq2
          intro hmem
          exact hq2 (List.mem_cons_of_mem _ (mem_of_mem_dropWhile hmem))
      · intro p hp hne
        have := hinv4 p hp hne
        rw [List.map_cons] at this
        exact fun hmem => this (List.mem_cons_of_mem _ hmem)

/-- Claim C6: over any date-sorted history (whose period labels are grouped,
as calendar order guarantees), the loop invests exactly once per period, on
the first row of the period passing the execution-day test, skipping periods
with no qualifying row — this is the equality with the specification loop
`specSipLog` — and a run with zero purchases yields `None` rather than an
error.  The worked example: monthly, amount 1000, execution day 1, NAV
constant 2.0 over two months → two purchases of 500 units each
(`accumulated_share` `[500, 1000]`), `invested_total = 2000`,
`final_value = 2000`, `yield_rate = 0`. -/
theorem calculate_sip_returns_spec (f : Frequency) (execDay : ℤ) (amount : ℚ)
    (rows : List SipRow) (hg : groupedB (rows.map (period f)) = true) :
    sipLog f execDay amount rows none 0 0 = specSipLog f execDay amount rows [] 0 0 ∧
    (sipLog f execDay amount rows none 0 0 = [] →
      calculate_sip_returns f execDay amount rows = none) ∧
    calculate_sip_returns Frequency.monthly 1 1000
        [⟨2024, 1, 2, 1, 2024, 1, 2⟩, ⟨2024, 1, 3, 2, 2024, 1, 2⟩,
         ⟨2024, 2, 1, 3, 2024, 5, 2⟩, ⟨2024, 2, 2, 4, 2024, 5, 2⟩] =
      some ⟨[1000, 2000], 2000, 2000, 0, [1100, 2200], [900, 1800]⟩ ∧
    (sipLog Frequency.monthly 1 1000
        [⟨2024, 1, 2, 1, 2024, 1, 2⟩, ⟨2024, 1, 3, 2, 2024, 1, 2⟩,
         ⟨2024, 2, 1, 3, 2024, 5, 2⟩, ⟨2024, 2, 2, 4, 2024, 5, 2⟩] none 0 0).map
      (fun e => e.accumulated_share) = [500, 1000] := by
  have hlog : sipLog Frequency.monthly 1 1000
      [⟨2024, 1, 2, 1, 2024, 1, 2⟩, ⟨2024, 1, 3, 2, 2024, 1, 2⟩,
       ⟨2024, 2, 1, 3, 2024, 5, 2⟩, ⟨2024, 2, 2, 4, 2024, 5, 2⟩] none 0 0 =
      [⟨⟨2024, 1, 2, 1, 2024, 1, 2⟩, 500, 1000, 1000⟩,
       ⟨⟨2024, 2, 1, 3, 2024, 5, 2⟩, 1000, 2000, 2000⟩] := by
    norm_num [sipLog, period, qualifies]
    simp
  refine ⟨?_, ?_, ?_, ?_⟩
  · refine sipLog_eq_specSipLog f execDay amount rows none [] 0 0 hg ?_ ?_
    · exact fun q hq => Option.noConfusion hq
    · exact fun p hp _ => absurd hp (List.not_mem_nil p)
  · intro h
    simp [calculate_sip_returns, h]
  · rw [calculate_sip_returns, hlog]
    norm_num
  · rw [hlog]
    rfl

theorem calculate_sip_returns_spec_witness :
    groupedB (([⟨2024, 1, 2, 1, 2024, 1, 2⟩, ⟨2024, 1, 3, 2, 2024, 1, 2⟩,
        ⟨2024, 2, 1, 3, 2024, 5, 2⟩, ⟨2024, 2, 2, 4, 2024, 5, 2⟩] : List SipRow).map
        (period Frequency.monthly)) = true ∧
    sipLog Frequency.monthly 1 1000
        [⟨2024, 1, 2, 1, 2024, 1, 2⟩, ⟨2024, 1, 3, 2, 2024, 1, 2⟩,
         ⟨2024, 2, 1, 3, 2024, 5, 2⟩, ⟨2024, 2, 2, 4, 2024, 5, 2⟩] none 0 0 =
      specSipLog Frequency.monthly 1 1000
        [⟨2024, 1, 2, 1, 2024, 1, 2⟩, ⟨2024, 1, 3, 2, 2024, 1, 2⟩,
         ⟨2024, 2, 1, 3, 2024, 5, 2⟩, ⟨2024, 2, 2, 4, 2024, 5, 2⟩] [] 0 0 :=
  ⟨rfl,
    (calculate_sip_returns_spec Frequency.monthly 1 1000
      [⟨2024, 1, 2, 1, 2024, 1, 2⟩, ⟨2024, 1, 3, 2, 2024, 1, 2⟩,
       ⟨2024, 2, 1, 3, 2024, 5, 2⟩, ⟨2024, 2, 2, 4, 2024, 5, 2⟩] rfl).1⟩

end FundAssistant
